import Mathlib

/-!
Verification of core components of the Tensorforce policy/optimizer framework.

Shallow embedding of:
* `tensorforce/core/optimizers/evolutionary.py` (`Evolutionary.step`)
* `tensorforce/core/optimizers/subsampling_step.py` (`SubsamplingStep.step`)
* `tensorforce/core/networks/auto.py` (`AutoNetwork.__init__`)
* `tensorforce/core/parameters/ornstein_uhlenbeck.py` (`OrnsteinUhlenbeck`)
* `tensorforce/core/policies/parametrized_distributions.py`
  (`ParametrizedDistributions.all_actions_values`)

Scalars are modelled as rationals (exact arithmetic); the one place where
IEEE behaviour is essential — the division by `num_samples` when it is
zero, which produces NaN — is modelled by `Option ℚ`, with `none` standing
for a non-finite result (NaN), which propagates through addition.
Randomness (normal perturbations, uniform index draws) is modelled by
explicit oracle parameters supplying the drawn values.
-/

namespace Tensorforce

/-! ## Evolutionary optimizer (`evolutionary.py`, `step`, non-unrolled path)

A collection of variables is modelled as a function `ι → ℚ` from an index
type (one index per tensor element across all variables); all tensor
operations in the source (`assign_add`, `zeros_like`, elementwise `+`, `-`,
`*`) act elementwise, and are modelled pointwise. The loss functions read
the current variable values, so they are modelled as `(ι → ℚ) → ℚ`.
`tf.math.sign` is `sign`. The i.i.d. normal draws of iteration `i` are the
oracle value `perts i`. -/

/-- `tf.math.sign` on reals: 1, -1 or 0. -/
def tfSign (x : ℚ) : ℚ := if 0 < x then 1 else if x < 0 then -1 else 0

/-- Loop state of the `tf.while_loop` in `Evolutionary.step`: the variable
values (mutated in place by `assign_add`), the accumulated `deltas`, and
`previous_perturbations` (the loop also returns the last `perturbations`,
which is the same as the final `previous_perturbations`). -/
structure EvoState (ι : Type) where
  vars : ι → ℚ
  deltas : ι → ℚ
  prevPerts : ι → ℚ

/-- One iteration of the sampling loop body (`evolutionary.py` lines
105-128): compute `perturbation_deltas = pert - prev_pert`, apply them to
the variables in place, evaluate the comparative loss on the perturbed
variables, accumulate `direction * perturbation` into `deltas`. -/
def evoBody {ι : Type} (loss : (ι → ℚ) → ℚ) (unperturbedLoss : ℚ)
    (perts : ι → ℚ) (s : EvoState ι) : EvoState ι :=
  let perturbationDeltas : ι → ℚ := fun v => perts v - s.prevPerts v
  let vars : ι → ℚ := fun v => s.vars v + perturbationDeltas v
  let perturbedLoss : ℚ := loss vars
  let direction : ℚ := tfSign (unperturbedLoss - perturbedLoss)
  { vars := vars
    deltas := fun v => s.deltas v + direction * perts v
    prevPerts := perts }

/-- The bounded `tf.while_loop` (`maximum_iterations = num_samples`),
starting from zero `deltas` and zero `previous_perturbations`. -/
def evoLoop {ι : Type} (loss : (ι → ℚ) → ℚ) (unperturbedLoss : ℚ)
    (pertSeq : ℕ → ι → ℚ) (init : ι → ℚ) : ℕ → EvoState ι
  | 0 => { vars := init, deltas := fun _ => 0, prevPerts := fun _ => 0 }
  | n + 1 => evoBody loss unperturbedLoss (pertSeq n)
      (evoLoop loss unperturbedLoss pertSeq init n)

/-- Float division by a sample count: `none` (NaN/non-finite) when the
count is zero, mirroring IEEE `0.0 / 0.0`. -/
def fdivCount (a : ℚ) (n : ℕ) : Option ℚ :=
  if n = 0 then none else some (a / n)

/-- `Evolutionary.step` (non-unrolled path): run the loop, divide the
accumulated deltas by `num_samples`, apply the correction
`delta - last_perturbation` to the variables in place, and return the
averaged deltas. Result: (returned deltas, final variable values), where
`none` marks a non-finite (NaN) value. -/
def evolutionaryStep {ι : Type} (loss : (ι → ℚ) → ℚ) (pertSeq : ℕ → ι → ℚ)
    (numSamples : ℕ) (init : ι → ℚ) : (ι → Option ℚ) × (ι → Option ℚ) :=
  let unperturbedLoss := loss init
  let s := evoLoop loss unperturbedLoss pertSeq init numSamples
  let returned : ι → Option ℚ := fun v => fdivCount (s.deltas v) numSamples
  let perturbationDeltas : ι → Option ℚ := fun v =>
    (returned v).map (fun d => d - s.prevPerts v)
  let finalVars : ι → Option ℚ := fun v =>
    (perturbationDeltas v).map (fun d => s.vars v + d)
  (returned, finalVars)

/-- The sign-weighted direction of sample `i`: the loss is evaluated at the
initial variables shifted by exactly that sample's perturbation. -/
def evoDirection {ι : Type} (loss : (ι → ℚ) → ℚ) (pertSeq : ℕ → ι → ℚ)
    (init : ι → ℚ) (i : ℕ) : ℚ :=
  tfSign (loss init - loss (fun v => init v + pertSeq i v))

/-- The averaged sign-weighted delta of the claim:
`(1/num_samples) * Σ_i sign(unperturbed - perturbed_i) * perturbation_i`. -/
def evoAvgDelta {ι : Type} (loss : (ι → ℚ) → ℚ) (pertSeq : ℕ → ι → ℚ)
    (numSamples : ℕ) (init : ι → ℚ) (v : ι) : ℚ :=
  (1 / (numSamples : ℚ)) *
    ∑ i ∈ Finset.range numSamples, evoDirection loss pertSeq init i * pertSeq i v

/-- Loop invariant of the sampling loop: the variables always carry the
initial values shifted by the last applied perturbation (telescoping), and
the accumulated deltas are the partial sign-weighted sums. -/
theorem evoLoop_invariant {ι : Type} (loss : (ι → ℚ) → ℚ)
    (pertSeq : ℕ → ι → ℚ) (init : ι → ℚ) :
    ∀ n : ℕ,
      ((evoLoop loss (loss init) pertSeq init n).vars
        = fun v => init v + (evoLoop loss (loss init) pertSeq init n).prevPerts v)
      ∧ ((evoLoop loss (loss init) pertSeq init n).deltas
        = fun v => ∑ i ∈ Finset.range n,
            evoDirection loss pertSeq init i * pertSeq i v) := by
  intro n
  induction n with
  | zero =>
    refine ⟨funext fun v => ?_, funext fun v => ?_⟩ <;> simp [evoLoop]
  | succ n ih =>
    obtain ⟨hv, hd⟩ := ih
    have harg : (fun v => (evoLoop loss (loss init) pertSeq init n).vars v +
          (pertSeq n v - (evoLoop loss (loss init) pertSeq init n).prevPerts v))
        = fun v => init v + pertSeq n v := by
      funext v
      rw [congrFun hv v]
      ring
    constructor
    · funext v
      simp only [evoLoop, evoBody]
      rw [congrFun hv v]
      ring
    · funext v
      simp only [evoLoop, evoBody]
      rw [harg, congrFun hd v, Finset.sum_range_succ]
      rfl

/-- C1: for `num_samples ≥ 1`, under exact arithmetic, `Evolutionary.step`
returns exactly the averaged sign-weighted delta
`(1/num_samples) * Σ_i sign(unperturbed_loss - perturbed_loss_i) * perturbation_i`
per variable (not the final correction), and every variable ends at its
initial value plus that averaged delta: the telescoping in-place
perturbations plus the final correction cancel the last sampled
perturbation exactly. -/
theorem evolutionary_step_net_effect {ι : Type} (loss : (ι → ℚ) → ℚ)
    (pertSeq : ℕ → ι → ℚ) (numSamples : ℕ) (init : ι → ℚ)
    (h : 1 ≤ numSamples) :
    (evolutionaryStep loss pertSeq numSamples init).1
      = (fun v => some (evoAvgDelta loss pertSeq numSamples init v))
    ∧ (evolutionaryStep loss pertSeq numSamples init).2
      = (fun v => some (init v + evoAvgDelta loss pertSeq numSamples init v)) := by
  obtain ⟨hv, hd⟩ := evoLoop_invariant loss pertSeq init numSamples
  have hn : numSamples ≠ 0 := by omega
  constructor
  · funext v
    simp only [evolutionaryStep, fdivCount, if_neg hn, Option.map_some']
    rw [congrFun hd v]
    simp only [Option.some.injEq, evoAvgDelta]
    ring
  · funext v
    simp only [evolutionaryStep, fdivCount, if_neg hn, Option.map_some']
    rw [congrFun hd v, congrFun hv v]
    simp only [Option.some.injEq, evoAvgDelta]
    ring

/-- Witness for C1: a single scalar variable starting at 0, one sample
with perturbation 1. -/
theorem evolutionary_step_net_effect_witness :
    (1 ≤ 1) ∧
    (evolutionaryStep (ι := Fin 1) (fun f => f 0) (fun _ _ => 1) 1 (fun _ => 0)).1
      = (fun v => some (evoAvgDelta (fun f => f 0) (fun _ _ => 1) 1 (fun _ => 0) v)) :=
  ⟨le_refl 1,
    (evolutionary_step_net_effect (fun f => f 0) (fun _ _ => 1) 1 (fun _ => 0)
      (le_refl 1)).1⟩

/-- C4 (code bug): with `num_samples = 0` (non-unrolled path) the loop body
never runs, so the accumulated deltas are the zero tensors, but the tail of
`step` divides them by `num_samples` cast to float — `0.0 / 0.0 = NaN` — so
every returned delta is NaN (`none`) and every variable is assigned a NaN
correction instead of being left unchanged. -/
theorem evolutionary_step_zero_samples_nan {ι : Type} (loss : (ι → ℚ) → ℚ)
    (pertSeq : ℕ → ι → ℚ) (init : ι → ℚ) (v : ι) :
    (evolutionaryStep loss pertSeq 0 init).1 v = none
    ∧ (evolutionaryStep loss pertSeq 0 init).2 v = none := by
  constructor <;> simp [evolutionaryStep, fdivCount]

/-! ## SubsamplingStep (`subsampling_step.py`, `step`)

A batched tensor is modelled as a `List` of its rows along the batch
dimension; the `arguments` `TensorDict` is modelled by a structure with
optional `states`, `horizons` (rows of `(offset, length)` pairs) and
`reward` entries plus a list of remaining named entries. `tf.gather` is
`gather`, the float→int cast of `num_samples` is truncation toward zero
(`ratTrunc`), and the uniform index draws are an oracle `ℕ → ℕ`. -/

/-- Truncation toward zero, the semantics of a TensorFlow float→int cast. -/
def ratTrunc (q : ℚ) : ℤ := if 0 ≤ q then ⌊q⌋ else ⌈q⌉

/-- The subsample size of `SubsamplingStep.step` (lines 64-69):
`max(1, int(fraction * batch_size))`. -/
def numSamples (fraction : ℚ) (batchSize : ℕ) : ℕ :=
  (max 1 (ratTrunc (fraction * batchSize))).toNat

/-- The drawn index list `tf.random.uniform(shape=(num_samples,))`,
supplied by the oracle `idxO`. -/
def sampledIndices (fraction : ℚ) (batchSize : ℕ) (idxO : ℕ → ℕ) : List ℕ :=
  (List.range (numSamples fraction batchSize)).map idxO

/-- `tf.gather` along the batch dimension. -/
def gather {β : Type} [Inhabited β] (l : List β) (idx : List ℕ) : List β :=
  idx.map (fun i => l.getD i default)

/-- `tf.math.cumsum(…, exclusive=True)`. -/
def exclusiveCumsum : List ℕ → List ℕ
  | [] => []
  | x :: xs => 0 :: (exclusiveCumsum xs).map (x + ·)

/-- The history-index expansion (`subsampled_states_indices`, lines 82-86):
`tf.foldl` concatenating the range `[offset, offset+length)` of every
gathered horizon row. -/
def expandedIndices (horizons : List (ℕ × ℕ)) : List ℕ :=
  horizons.flatMap (fun h => List.range' h.1 h.2)

/-- The `arguments` `TensorDict` of `SubsamplingStep.step`: the entries the
code treats specially (`states`, `horizons`, `reward`), each optional, plus
the remaining named entries. -/
structure Arguments (σ α : Type) where
  states : Option (List σ) := none
  horizons : Option (List (ℕ × ℕ)) := none
  reward : Option (List α) := none
  others : List (String × List α) := []

/-- The subsampled argument set built by `SubsamplingStep.step` (lines
56-99). `none` models the lookup failure (`KeyError`) on
`arguments['reward']` when that entry is absent. When both `states` and
`horizons` are present, states are gathered by the expanded history
indices — or directly by the sampled indices when every horizon length is
1 — and the horizons are rebuilt as `(exclusive cumsum, length)` pairs;
every other entry is gathered by the sampled indices. -/
def subsampledArguments {σ α : Type} [Inhabited σ] [Inhabited α]
    (fraction : ℚ) (idxO : ℕ → ℕ) (args : Arguments σ α) :
    Option (Arguments σ α) :=
  match args.reward with
  | none => none
  | some reward =>
    let batchSize := reward.length
    let indices := sampledIndices fraction batchSize idxO
    match args.states, args.horizons with
    | some states, some horizons =>
      let isOneHorizons := horizons.all (fun h => h.2 == 1)
      let gHorizons := gather horizons indices
      let statesIndices :=
        if isOneHorizons then indices else expandedIndices gHorizons
      some { states := some (gather states statesIndices)
             horizons := some ((exclusiveCumsum (gHorizons.map (·.2))).zip
               (gHorizons.map (·.2)))
             reward := some (gather reward indices)
             others := args.others.map (fun p => (p.1, gather p.2 indices)) }
    | _, _ =>
      some { states := args.states.map (fun s => gather s indices)
             horizons := args.horizons.map (fun h => gather h indices)
             reward := some (gather reward indices)
             others := args.others.map (fun p => (p.1, gather p.2 indices)) }

/-- `SubsamplingStep.step`: build the subsampled arguments, then delegate
to the wrapped optimizer's `step`, returning its result unchanged. -/
def subsamplingStep {σ α δ : Type} [Inhabited σ] [Inhabited α]
    (innerStep : Arguments σ α → δ) (fraction : ℚ) (idxO : ℕ → ℕ)
    (args : Arguments σ α) : Option δ :=
  (subsampledArguments fraction idxO args).map innerStep

/-- The sample-count formula claimed by the spec: rounding to nearest
instead of the code's truncation. -/
def roundClaim (q : ℚ) : ℤ := ⌊q + 1 / 2⌋

/-- Helper: whenever `reward` is present, the subsampled arguments exist
and every entry is gathered by the sampled index list, whose length is the
sample count computed from the `reward` batch dimension. -/
theorem subsampledArguments_reward_some {σ α : Type} [Inhabited σ]
    [Inhabited α] (fraction : ℚ) (idxO : ℕ → ℕ) (st : Option (List σ))
    (hz : Option (List (ℕ × ℕ))) (ot : List (String × List α)) (r : List α) :
    ∃ sub : Arguments σ α,
      subsampledArguments fraction idxO
        { states := st, horizons := hz, reward := some r, others := ot }
        = some sub
      ∧ sub.reward = some (gather r (sampledIndices fraction r.length idxO))
      ∧ sub.others = ot.map
          (fun p => (p.1, gather p.2 (sampledIndices fraction r.length idxO))) := by
  cases st <;> cases hz <;> exact ⟨_, rfl, rfl, rfl⟩

/-- C3 counterexample: the code truncates `fraction * batch_size` (TF int
cast), it does not round to nearest. For `fraction = 3/5` and
`batch_size = 3` the code draws `max(1, int(1.8)) = 1` index, while the
claimed formula `max(1, round(1.8))` gives 2. -/
theorem subsampling_count_counterexample :
    numSamples (3 / 5) 3 = 1
    ∧ (max 1 (roundClaim ((3 / 5) * ((3 : ℕ) : ℚ)))).toNat = 2 := by
  have hq : (3 / 5 : ℚ) * ((3 : ℕ) : ℚ) = 9 / 5 := by norm_num
  have hfl : ⌊(9 / 5 : ℚ)⌋ = 1 := by
    rw [Int.floor_eq_iff]
    norm_num
  have hfl2 : ⌊(9 / 5 : ℚ) + 1 / 2⌋ = 2 := by
    rw [Int.floor_eq_iff]
    norm_num
  have e1 : ratTrunc ((3 / 5 : ℚ) * ((3 : ℕ) : ℚ)) = 1 := by
    rw [ratTrunc, hq, if_pos (by norm_num), hfl]
  constructor
  · rw [numSamples, e1]
    rfl
  · rw [roundClaim, hq, hfl2]
    rfl

/-- C3 (amended): `step` delegates to the wrapped optimizer with a
minibatch of exactly `max(1, trunc(fraction * batch_size))` uniformly drawn
indices (truncation, not rounding); this size is always ≥ 1, and for
`fraction = 1` it equals the batch size. -/
theorem subsampling_minibatch_size {σ α δ : Type} [Inhabited σ] [Inhabited α]
    (innerStep : Arguments σ α → δ) (fraction : ℚ) (idxO : ℕ → ℕ)
    (args : Arguments σ α) (r : List α)
    (hr : args.reward = some r) (hf : 0 ≤ fraction) :
    (∃ sub : Arguments σ α,
        subsampledArguments fraction idxO args = some sub
        ∧ sub.reward.map List.length = some (numSamples fraction r.length)
        ∧ subsamplingStep innerStep fraction idxO args = some (innerStep sub))
    ∧ numSamples fraction r.length
        = (max 1 ⌊fraction * (r.length : ℚ)⌋).toNat
    ∧ 1 ≤ numSamples fraction r.length
    ∧ (fraction = 1 → 1 ≤ r.length →
        numSamples fraction r.length = r.length) := by
  obtain ⟨st, hz, rv, ot⟩ := args
  have hrv : rv = some r := hr
  subst hrv
  refine ⟨?_, ?_, ?_, ?_⟩
  · obtain ⟨sub, h1, h2, h3⟩ := subsampledArguments_reward_some fraction idxO st hz ot r
    refine ⟨sub, h1, ?_, ?_⟩
    · rw [h2]
      simp [gather, sampledIndices]
    · rw [subsamplingStep, h1]
      rfl
  · have hq : (0 : ℚ) ≤ fraction * (r.length : ℚ) :=
      mul_nonneg hf (by positivity)
    rw [numSamples, ratTrunc, if_pos hq]
  · have h1 : (1 : ℤ) ≤ max 1 (ratTrunc (fraction * (r.length : ℚ))) :=
      le_max_left _ _
    rw [numSamples]
    omega
  · intro h1 h2
    subst h1
    have : ratTrunc ((1 : ℚ) * (r.length : ℚ)) = (r.length : ℤ) := by
      rw [one_mul, ratTrunc, if_pos (by positivity), Int.floor_natCast]
    rw [numSamples, this]
    omega

/-- Witness for C3 (amended): batch of 2 rewards, `fraction = 1/2`. -/
theorem subsampling_minibatch_size_witness :
    (0 ≤ (1 / 2 : ℚ)) ∧
    (∃ sub : Arguments ℕ ℕ,
        subsampledArguments (1 / 2) (fun _ => 0)
          { states := none, horizons := none, reward := some [7, 8], others := [] }
          = some sub
        ∧ sub.reward.map List.length
            = some (numSamples (1 / 2) (List.length ([7, 8] : List ℕ)))
        ∧ subsamplingStep (fun _ : Arguments ℕ ℕ => (0 : ℕ)) (1 / 2) (fun _ => 0)
            { states := none, horizons := none, reward := some [7, 8], others := [] }
            = some ((fun _ : Arguments ℕ ℕ => (0 : ℕ)) sub)) :=
  ⟨by norm_num,
    (subsampling_minibatch_size (fun _ : Arguments ℕ ℕ => (0 : ℕ)) (1 / 2) (fun _ => 0)
      { states := none, horizons := none, reward := some [7, 8], others := [] }
      [7, 8] rfl (by norm_num)).1⟩

/-- C10: `step` reads the batch size exclusively from the first dimension
of `arguments['reward']`: when `reward` is absent the lookup fails and the
wrapped optimizer is never invoked (`none`); when it is present, every
other gathered entry ends up with exactly `num_samples` rows computed from
the `reward` length, regardless of the entries' own original sizes. -/
theorem subsampling_requires_reward {σ α δ : Type} [Inhabited σ] [Inhabited α]
    (innerStep : Arguments σ α → δ) (fraction : ℚ) (idxO : ℕ → ℕ)
    (args : Arguments σ α) :
    (args.reward = none → subsampledArguments fraction idxO args = none
      ∧ subsamplingStep innerStep fraction idxO args = none)
    ∧ (∀ r : List α, args.reward = some r →
        ∃ sub : Arguments σ α,
          subsampledArguments fraction idxO args = some sub
          ∧ sub.reward.map List.length = some (numSamples fraction r.length)
          ∧ sub.others.map (fun p => (p.1, p.2.length))
            = args.others.map (fun p => (p.1, numSamples fraction r.length))) := by
  obtain ⟨st, hz, rv, ot⟩ := args
  constructor
  · intro h
    have hrv : rv = none := h
    subst hrv
    exact ⟨rfl, rfl⟩
  · intro r h
    have hrv : rv = some r := h
    subst hrv
    obtain ⟨sub, h1, h2, h3⟩ := subsampledArguments_reward_some fraction idxO st hz ot r
    refine ⟨sub, h1, ?_, ?_⟩
    · rw [h2]
      simp [gather, sampledIndices]
    · rw [h3]
      simp [gather, sampledIndices, List.map_map, Function.comp]

/-- Witness for C10: a missing `reward` entry makes `step` fail, and a
present one fixes the minibatch size of an unrelated size-3 entry. -/
theorem subsampling_requires_reward_witness :
    (subsampledArguments (σ := ℕ) (α := ℕ) (1 / 2) (fun _ => 0)
        { states := none, horizons := none, reward := none, others := [] } = none
      ∧ subsamplingStep (fun _ => (0 : ℕ)) (1 / 2) (fun _ => 0)
          ({ states := none, horizons := none, reward := none, others := [] } :
            Arguments ℕ ℕ) = none)
    ∧ (∃ sub : Arguments ℕ ℕ,
        subsampledArguments (1 / 2) (fun _ => 0)
          { states := none, horizons := none, reward := some [5],
            others := [("x", [1, 2, 3])] } = some sub
        ∧ sub.reward.map List.length
            = some (numSamples (1 / 2) (List.length ([5] : List ℕ)))
        ∧ sub.others.map (fun p => (p.1, p.2.length))
            = ([("x", [1, 2, 3])] : List (String × List ℕ)).map
                (fun p => (p.1, numSamples (1 / 2) (List.length ([5] : List ℕ))))) :=
  ⟨(subsampling_requires_reward (fun _ => (0 : ℕ)) (1 / 2) (fun _ => 0)
      { states := none, horizons := none, reward := none, others := [] }).1 rfl,
    (subsampling_requires_reward (fun _ => (0 : ℕ)) (1 / 2) (fun _ => 0)
      { states := none, horizons := none, reward := some [5],
        others := [("x", [1, 2, 3])] }).2 [5] rfl⟩

/-- C5 counterexample: the single-step shortcut gathers states by the
sampled transition indices, while the full history-index expansion gathers
by the horizon *offsets*. With `horizons = [(1, 1)]` (length-1 window at
offset 1), states `[10, 20]` and sampled index 0, the shortcut yields
`[10]` but the expansion path yields `[20]`. -/
theorem subsampling_shortcut_counterexample :
    (subsampledArguments (σ := ℕ) (α := ℕ) 1 (fun _ => 0)
        { states := some [10, 20], horizons := some [(1, 1)],
          reward := some [0], others := [] }).bind Arguments.states
    ≠ some (gather ([10, 20] : List ℕ) (expandedIndices
        (gather [(1, 1)] (sampledIndices 1 1 (fun _ => 0))))) := by
  have hn : numSamples 1 1 = 1 := by
    rw [numSamples, ratTrunc, if_pos (by norm_num), Nat.cast_one, mul_one,
      Int.floor_one]
    rfl
  have hs : sampledIndices 1 1 (fun _ => 0) = [0] := by
    rw [sampledIndices, hn]
    rfl
  have hL : (subsampledArguments (σ := ℕ) (α := ℕ) 1 (fun _ => 0)
      { states := some [10, 20], horizons := some [(1, 1)],
        reward := some [0], others := [] }).bind Arguments.states
      = some [10] := by
    simp [subsampledArguments, hs, gather, sampledIndices, hn]
  have hR : gather ([10, 20] : List ℕ) (expandedIndices
      (gather [(1, 1)] (sampledIndices 1 1 (fun _ => 0)))) = [20] := by
    rw [hs]
    rfl
  rw [hL, hR]
  simp

/-- C5 (amended): when every transition's horizon has length 1 *and* every
transition's offset equals its own batch index (`horizons[i] = (i, 1)`),
the subsampled states are a direct gather by the sampled indices, and that
shortcut coincides with the full history-index expansion path. -/
theorem subsampling_shortcut_equiv {σ α : Type} [Inhabited σ] [Inhabited α]
    (fraction : ℚ) (idxO : ℕ → ℕ) (states : List σ)
    (horizons : List (ℕ × ℕ)) (r : List α) (ot : List (String × List α))
    (hh : ∀ i, i < horizons.length → horizons.getD i default = (i, 1))
    (hidx : ∀ j, idxO j < horizons.length) :
    ∃ sub : Arguments σ α,
      subsampledArguments fraction idxO
        { states := some states, horizons := some horizons,
          reward := some r, others := ot } = some sub
      ∧ sub.states = some (gather states (sampledIndices fraction r.length idxO))
      ∧ gather states (sampledIndices fraction r.length idxO)
        = gather states (expandedIndices
            (gather horizons (sampledIndices fraction r.length idxO))) := by
  have hone : horizons.all (fun h => h.2 == 1) = true := by
    rw [List.all_eq_true]
    intro h hmem
    obtain ⟨i, hi, hig⟩ := List.mem_iff_getElem.mp hmem
    have := hh i hi
    rw [List.getD_eq_getElem _ _ hi, hig] at this
    rw [this]
    rfl
  have hexp : ∀ l : List ℕ, (∀ j ∈ l, j < horizons.length) →
      expandedIndices (gather horizons l) = l := by
    intro l
    induction l with
    | nil => intro _; rfl
    | cons a t ih =>
      intro hmem
      have ha : horizons.getD a default = (a, 1) :=
        hh a (hmem a (by simp))
      have ht : expandedIndices (gather horizons t) = t :=
        ih (fun j hj => hmem j (by simp [hj]))
      show List.range' (horizons.getD a default).1 (horizons.getD a default).2
          ++ expandedIndices (gather horizons t) = a :: t
      rw [ha, ht]
      rfl
  have hidxmem : ∀ j ∈ sampledIndices fraction r.length idxO,
      j < horizons.length := by
    intro j hj
    rw [sampledIndices, List.mem_map] at hj
    obtain ⟨k, _, hk⟩ := hj
    rw [← hk]
    exact hidx k
  refine ⟨_, rfl, ?_, ?_⟩
  · simp only [subsampledArguments, hone, if_true]
  · rw [hexp _ hidxmem]

/-- Witness for C5 (amended): aligned length-1 horizons `[(0,1), (1,1)]`,
sampling index 1. -/
theorem subsampling_shortcut_equiv_witness :
    (∀ i, i < ([(0, 1), (1, 1)] : List (ℕ × ℕ)).length →
      ([(0, 1), (1, 1)] : List (ℕ × ℕ)).getD i default = (i, 1))
    ∧ (∃ sub : Arguments ℕ ℕ,
        subsampledArguments 1 (fun _ => 1)
          { states := some [10, 20], horizons := some [(0, 1), (1, 1)],
            reward := some [5, 6], others := [] } = some sub
        ∧ sub.states = some (gather [10, 20]
            (sampledIndices 1 (List.length ([5, 6] : List ℕ)) (fun _ => 1)))
        ∧ gather ([10, 20] : List ℕ)
              (sampledIndices 1 (List.length ([5, 6] : List ℕ)) (fun _ => 1))
            = gather [10, 20] (expandedIndices (gather [(0, 1), (1, 1)]
                (sampledIndices 1 (List.length ([5, 6] : List ℕ)) (fun _ => 1))))) :=
  ⟨by decide,
    subsampling_shortcut_equiv 1 (fun _ => 1) [10, 20] [(0, 1), (1, 1)]
      [5, 6] [] (by decide) (fun _ => Nat.one_lt_two)⟩

/-! ## AutoNetwork (`auto.py`, `__init__`)

The network definition built by `AutoNetwork.__init__` is a list of layer
pipelines, each pipeline a list of layer descriptor dicts; the descriptors
are modelled by a structure with the union of the dict keys used. A
`TensorforceError.value(...)` is an `Except.error` carrying the error's
named fields. `rnn=False | int` is `Option ℕ`, `final_size=None | int` is
`Option ℕ`. -/

/-- The type of an input spec: `bool`, `int` or `float`. -/
inductive InputType
  | bool
  | int
  | float
deriving DecidableEq, Repr

/-- An input spec: type and shape; the rank is the length of the shape. -/
structure InputSpec where
  type : InputType
  shape : List ℕ
deriving DecidableEq, Repr

/-- `spec.rank`. -/
def InputSpec.rank (s : InputSpec) : ℕ := s.shape.length

/-- One layer descriptor dict; fields not present in a given dict keep
their default. -/
structure LayerSpec where
  type : String
  name : String
  tensors : List String := []
  aggregation : Option String := none
  size : Option ℕ := none
  reduction : Option String := none
  tensor : Option String := none
  horizon : Option ℕ := none
deriving DecidableEq, Repr

/-- A `TensorforceError.value(name=…, argument=…, value=…, hint=…)` or
`…value(…, condition=…)`. -/
structure TFError where
  name : String
  argument : String
  value : String
  hint : Option String := none
  condition : Option String := none
deriving DecidableEq, Repr

/-- `requires_embedding = (spec.type == 'bool' or spec.type == 'int')`, a
Python bool used as the integer 0/1 in arithmetic. -/
def requiresEmbedding (t : InputType) : ℕ :=
  if t = InputType.bool ∨ t = InputType.int then 1 else 0

/-- The per-input pipeline of `AutoNetwork.__init__` (lines 56-101):
retrieve, optional embedding for bool/int, the rank-dispatched
shape-specific layer repeated `depth - requires_embedding` times (flatten
first in the rank-0 fallthrough case), max-pooling when the shape has more
than `1 - requires_embedding` dimensions, and the register layer. -/
def statePipeline (size depth : ℕ) (inputName : String) (spec : InputSpec) :
    Except TFError (List LayerSpec) :=
  let re : ℕ := requiresEmbedding spec.type
  let retrieveL : List LayerSpec :=
    [{ type := "retrieve", name := inputName ++ "_retrieve",
       tensors := [inputName] }]
  let embedL : List LayerSpec :=
    if re = 1 then
      [{ type := "embedding", name := inputName ++ "_embedding",
         size := some size }]
    else []
  let dispatch : Except TFError (List LayerSpec × String) :=
    if spec.rank = 1 - re then Except.ok ([], "dense")
    else if spec.rank = 2 - re then Except.ok ([], "conv1d")
    else if spec.rank = 3 - re then Except.ok ([], "conv2d")
    else if spec.rank = 0 then
      Except.ok ([{ type := "flatten", name := inputName ++ "_flatten" }],
        "dense")
    else Except.error
      { name := "AutoNetwork", argument := "input rank",
        value := toString spec.rank, hint := some ">= 3" }
  dispatch.map (fun fl =>
    let repeated : List LayerSpec := (List.range (depth - re)).map (fun n =>
      { type := fl.2, name := inputName ++ "_" ++ fl.2 ++ toString n,
        size := some size })
    let pool : List LayerSpec :=
      if 1 - re < spec.shape.length then
        [{ type := "pooling", name := inputName ++ "_pooling",
           reduction := some "max" }]
      else []
    let registerL : List LayerSpec :=
      [{ type := "register", name := inputName ++ "_register",
         tensor := some (inputName ++ "-embedding") }]
    retrieveL ++ embedL ++ fl.1 ++ repeated ++ pool ++ registerL)

/-- The final combined pipeline of `AutoNetwork.__init__` (lines 104-121):
a concatenating retrieve of all per-input embeddings, `final_depth` dense
layers only when there is more than one input, and an lstm cell when `rnn`
is not `False`. -/
def finalPipeline (finalSize finalDepth : ℕ) (rnn : Option ℕ)
    (inputNames : List String) : List LayerSpec :=
  [{ type := "retrieve", name := "retrieve",
     tensors := inputNames.map (fun n => n ++ "-embedding"),
     aggregation := some "concat" }]
  ++ (if 1 < inputNames.length then
        (List.range finalDepth).map (fun n =>
          { type := "dense", name := "dense" ++ toString n,
            size := some finalSize })
      else [])
  ++ (match rnn with
      | some h => [{ type := "lstm", name := "lstm", size := some finalSize,
                     horizon := some h }]
      | none => [])

/-- The full network definition of `AutoNetwork.__init__`: the per-input
pipelines in declaration order followed by the final pipeline
(`final_size` defaults to `size` when `None`). -/
def autoNetworkLayers (size depth : ℕ) (finalSize : Option ℕ)
    (finalDepth : ℕ) (rnn : Option ℕ)
    (inputsSpec : List (String × InputSpec)) :
    Except TFError (List (List LayerSpec)) := do
  let fs := finalSize.getD size
  let stateLists ← inputsSpec.mapM (fun p => statePipeline size depth p.1 p.2)
  return stateLists ++ [finalPipeline fs finalDepth rnn (inputsSpec.map (·.1))]

/-- Number of layers of a given `type` in a pipeline. -/
def countType (ls : List LayerSpec) (t : String) : ℕ :=
  ls.countP (fun l => l.type == t)

/-- C2 counterexample: an `int` input of rank 3 makes construction fail
with the invalid-argument error, although the claim says rank 3 succeeds
with `conv2d` layers (the embedding layer of bool/int inputs shifts the
whole rank dispatch by one). -/
theorem auto_network_rank_counterexample :
    autoNetworkLayers 64 2 none 1 none
        [("s", { type := InputType.int, shape := [4, 4, 4] })]
      = Except.error
          { name := "AutoNetwork", argument := "input rank",
            value := "3", hint := some ">= 3" } := by
  rfl

/-- C2 (amended): per input, construction succeeds iff
`rank + requires_embedding ≤ 3` (so bool/int inputs only admit rank ≤ 2),
and otherwise raises the invalid-argument error naming `input rank`. On
success the depth-repeated shape-specific layer type is determined by the
effective rank `rank + requires_embedding`: `dense` for 0 or 1 (with a
`flatten` only for a rank-0 float input), `conv1d` for 2, `conv2d` for 3;
bool/int inputs get one embedding layer that consumes one unit of depth
(`depth - requires_embedding` repeated layers). -/
theorem auto_state_pipeline_rank_table (size depth : ℕ) (inputName : String)
    (spec : InputSpec) :
    ((statePipeline size depth inputName spec).isOk = true
      ↔ spec.rank + requiresEmbedding spec.type ≤ 3)
    ∧ (3 < spec.rank + requiresEmbedding spec.type →
        statePipeline size depth inputName spec = Except.error
          { name := "AutoNetwork", argument := "input rank",
            value := toString spec.rank, hint := some ">= 3" })
    ∧ (statePipeline size depth inputName spec).toOption.map
          (fun ls => countType ls "embedding")
        = (if spec.rank + requiresEmbedding spec.type ≤ 3 then
            some (requiresEmbedding spec.type) else none)
    ∧ (statePipeline size depth inputName spec).toOption.map
          (fun ls => countType ls "flatten")
        = (if spec.rank + requiresEmbedding spec.type ≤ 3 then
            some (if spec.type = InputType.float ∧ spec.rank = 0 then 1 else 0)
          else none)
    ∧ (statePipeline size depth inputName spec).toOption.map
          (fun ls => countType ls "dense")
        = (if spec.rank + requiresEmbedding spec.type ≤ 3 then
            some (if spec.rank + requiresEmbedding spec.type ≤ 1 then
              depth - requiresEmbedding spec.type else 0)
          else none)
    ∧ (statePipeline size depth inputName spec).toOption.map
          (fun ls => countType ls "conv1d")
        = (if spec.rank + requiresEmbedding spec.type ≤ 3 then
            some (if spec.rank + requiresEmbedding spec.type = 2 then
              depth - requiresEmbedding spec.type else 0)
          else none)
    ∧ (statePipeline size depth inputName spec).toOption.map
          (fun ls => countType ls "conv2d")
        = (if spec.rank + requiresEmbedding spec.type ≤ 3 then
            some (if spec.rank + requiresEmbedding spec.type = 3 then
              depth - requiresEmbedding spec.type else 0)
          else none) := by
  obtain ⟨t, shape⟩ := spec
  obtain ⟨n, hn⟩ : ∃ n, shape.length = n := ⟨_, rfl⟩
  cases t <;> rcases n with _ | _ | _ | _ | m <;>
    refine ⟨?_, ?_, ?_, ?_, ?_, ?_, ?_⟩ <;>
      simp [statePipeline, InputSpec.rank, requiresEmbedding, hn, countType,
        Except.isOk, Except.map, Except.toOption, Except.toBool,
        Function.comp_def, List.countP_append, List.countP_map,
        List.countP_cons]

/-- Witness for C2 (amended): an `int` input of rank 3 (effective rank 4)
raises the invalid-argument error naming `input rank`. -/
theorem auto_state_pipeline_rank_table_witness :
    statePipeline 64 2 "s" { type := InputType.int, shape := [4, 4, 4] }
      = Except.error
          { name := "AutoNetwork", argument := "input rank",
            value := toString
              (InputSpec.rank { type := InputType.int, shape := [4, 4, 4] }),
            hint := some ">= 3" } :=
  (auto_state_pipeline_rank_table 64 2 "s"
    { type := InputType.int, shape := [4, 4, 4] }).2.1 (by decide)

/-- C7: the merge pipeline starts with a retrieve layer over exactly the
`N` synthesized `<input_name>-embedding` keys with concat aggregation;
it contains `final_depth` dense layers (all of size `final_size`) exactly
when there are at least two inputs and none otherwise; its last layer is
an lstm iff `rnn` is not `False`, and when `rnn` is an integer the
appended last layer is exactly the lstm layer of size `final_size` with
horizon `rnn`. -/
theorem auto_final_pipeline_spec (finalSize finalDepth : ℕ) (rnn : Option ℕ)
    (inputNames : List String) :
    (finalPipeline finalSize finalDepth rnn inputNames).head?
      = some { type := "retrieve", name := "retrieve",
               tensors := inputNames.map (fun n => n ++ "-embedding"),
               aggregation := some "concat" }
    ∧ countType (finalPipeline finalSize finalDepth rnn inputNames) "dense"
      = (if 1 < inputNames.length then finalDepth else 0)
    ∧ (finalPipeline finalSize finalDepth rnn inputNames).countP
          (fun l => l.type == "dense" && l.size == some finalSize)
      = (if 1 < inputNames.length then finalDepth else 0)
    ∧ ((finalPipeline finalSize finalDepth rnn inputNames).getLast?.map
          (fun l => l.type) = some "lstm" ↔ rnn.isSome = true)
    ∧ (∀ h : ℕ, rnn = some h →
        (finalPipeline finalSize finalDepth rnn inputNames).getLast?
          = some { type := "lstm", name := "lstm", size := some finalSize,
                   horizon := some h }) := by
  refine ⟨?_, ?_, ?_, ?_, ?_⟩
  · cases rnn <;> simp [finalPipeline]
  · by_cases hN : 1 < inputNames.length <;> cases rnn <;>
      simp [finalPipeline, countType, hN, List.countP_append,
        List.countP_map, Function.comp_def, List.countP_cons]
  · by_cases hN : 1 < inputNames.length <;> cases rnn <;>
      simp [finalPipeline, countType, hN, List.countP_append,
        List.countP_map, Function.comp_def, List.countP_cons]
  · cases rnn with
    | none =>
      simp only [Option.isSome_none, Bool.false_eq_true, iff_false]
      intro hcontra
      rw [Option.map_eq_some'] at hcontra
      obtain ⟨a, ha, hat⟩ := hcontra
      have hmem := List.mem_of_getLast?_eq_some ha
      by_cases hN : 1 < inputNames.length
      · simp [finalPipeline, hN, List.mem_append, List.mem_map] at hmem
        rcases hmem with h | ⟨n, _, hfn⟩
        · rw [h] at hat
          simp at hat
        · rw [← hfn] at hat
          simp at hat
      · simp [finalPipeline, hN] at hmem
        rw [hmem] at hat
        simp at hat
    | some h =>
      by_cases hN : 1 < inputNames.length <;>
        simp [finalPipeline, hN, List.getLast?_cons, List.getLast?_append]
  · intro h hrnn
    subst hrnn
    simp [finalPipeline, List.getLast?_cons, List.getLast?_append]

/-- Witness for C7: two inputs, `final_size = 32`, `rnn = 4` — the last
layer is the lstm with horizon 4. -/
theorem auto_final_pipeline_spec_witness :
    (finalPipeline 32 1 (some 4) ["a", "b"]).getLast?
      = some { type := "lstm", name := "lstm", size := some 32,
               horizon := some 4 } :=
  (auto_final_pipeline_spec 32 1 (some 4) ["a", "b"]).2.2.2.2 4 rfl

/-! ## OrnsteinUhlenbeck parameter (`ornstein_uhlenbeck.py`)

The persistent scalar `process` variable and the Gaussian draws are
modelled over `ℚ`, with the noise sequence as an oracle. -/

/-- `OrnsteinUhlenbeck.min_value` (lines 57-61): returns `0` (cast to the
parameter's python type) when `absolute`; otherwise the `else` branch
evaluates `super().min_value()` but has no `return` statement, so the
method returns Python `None` (`none`) and the base class's bound
`superMin` is discarded. -/
def ouMinValue (absolute : Bool) (superMin : ℚ) : Option ℚ :=
  if absolute then some 0
  else
    let _discarded := superMin
    none

/-- One `parameter_value` update (lines 71-75):
`delta = theta * (mu - process) + sigma * noise`, and the new `process`
value is `|process + delta|` when `absolute`, else `process + delta`; the
new value is also the value returned to the caller. -/
def ouProcessUpdate (theta sigma mu : ℚ) (absolute : Bool)
    (noise process : ℚ) : ℚ :=
  let delta := theta * (mu - process) + sigma * noise
  if absolute then |process + delta| else process + delta

/-- The `process` variable over a whole sequence of value requests:
initialized to `mu` (line 68), then updated once per request; the value
returned by the `k`-th request is `ouProcess … (k + 1)`. -/
def ouProcess (theta sigma mu : ℚ) (absolute : Bool) (noise : ℕ → ℚ) :
    ℕ → ℚ
  | 0 => mu
  | k + 1 => ouProcessUpdate theta sigma mu absolute (noise k)
      (ouProcess theta sigma mu absolute noise k)

/-- C6 (code bug): `min_value()` returns 0 for `absolute=True`, but for
`absolute=False` it returns `None` — the `super().min_value()` result is
computed and dropped because the `else` branch lacks a `return` — so it
never returns the base class's bound to the caller. -/
theorem ou_min_value_missing_return (superMin : ℚ) :
    ouMinValue true superMin = some 0
    ∧ ouMinValue false superMin = none
    ∧ ouMinValue false superMin ≠ some superMin := by
  refine ⟨rfl, rfl, ?_⟩
  simp [ouMinValue]

/-- C8: with `absolute=True`, every returned value — the `process` state
after each update, which is assigned `|process + delta|` — is ≥ 0, for
every parameter setting and every realization of the noise. -/
theorem ou_absolute_nonneg (theta sigma mu : ℚ) (noise : ℕ → ℚ) (k : ℕ) :
    0 ≤ ouProcess theta sigma mu true noise (k + 1) := by
  simp only [ouProcess, ouProcessUpdate, if_true]
  exact abs_nonneg _

/-! ## ParametrizedDistributions (`parametrized_distributions.py`,
`all_actions_values`)

Only the action-type guard and the fan-out structure are relevant: the
network, the per-action distribution parametrization and the per-action
value heads are abstract functions. Action specs use the same
`bool`/`int`/`float` type system as input specs. -/

/-- `ParametrizedDistributions.all_actions_values` (lines 276-293): raise
a value error unless every action spec's type is in `('bool', 'int')`;
otherwise apply the network once and fan the shared embedding out across
all action distributions. -/
def allActionsValues {S E P V : Type} (actionsSpec : List (String × InputType))
    (networkApply : S → E) (distParametrize : String → E → P)
    (distAllActionValues : String → P → V) (states : S) :
    Except TFError (List (String × V)) :=
  if !(actionsSpec.all fun p =>
      p.2 == InputType.bool || p.2 == InputType.int) then
    Except.error
      { name := "ParametrizedDistributions", argument := "infer_state_value",
        value := "action-values",
        condition := some "action types not bool/int" }
  else
    let embedding := networkApply states
    Except.ok (actionsSpec.map (fun p =>
      (p.1, distAllActionValues p.1 (distParametrize p.1 embedding))))

/-- C9: `all_actions_values` raises a value error iff some action spec has
type `float` (equivalently, not all action types are bool or int); when
every action type is bool or int it returns, for each action in order, the
value head applied to the distribution parametrized from the one shared
embedding `networkApply states`. -/
theorem all_actions_values_spec {S E P V : Type}
    (actionsSpec : List (String × InputType)) (networkApply : S → E)
    (distParametrize : String → E → P) (distAllActionValues : String → P → V)
    (states : S) :
    ((allActionsValues actionsSpec networkApply distParametrize
        distAllActionValues states).isOk = true
      ↔ ∀ p ∈ actionsSpec, p.2 ≠ InputType.float)
    ∧ ((∃ p ∈ actionsSpec, p.2 = InputType.float) →
        allActionsValues actionsSpec networkApply distParametrize
            distAllActionValues states
          = Except.error
              { name := "ParametrizedDistributions",
                argument := "infer_state_value", value := "action-values",
                condition := some "action types not bool/int" })
    ∧ ((∀ p ∈ actionsSpec, p.2 ≠ InputType.float) →
        allActionsValues actionsSpec networkApply distParametrize
            distAllActionValues states
          = Except.ok (actionsSpec.map (fun p =>
              (p.1, distAllActionValues p.1
                (distParametrize p.1 (networkApply states)))))) := by
  have key : (actionsSpec.all fun p =>
      p.2 == InputType.bool || p.2 == InputType.int) = true
      ↔ ∀ p ∈ actionsSpec, p.2 ≠ InputType.float := by
    rw [List.all_eq_true]
    constructor
    · intro h p hp ht
      have := h p hp
      rw [ht] at this
      simp at this
    · intro h p hp
      have hnf := h p hp
      cases hpt : p.2
      · simp
      · simp
      · exact absurd hpt hnf
  by_cases hall : (actionsSpec.all fun p =>
      p.2 == InputType.bool || p.2 == InputType.int) = true
  · refine ⟨?_, ?_, ?_⟩
    · simp [allActionsValues, hall, Except.isOk, Except.toBool]
      intro a b hab
      exact key.mp hall (a, b) hab
    · intro ⟨p, hp, ht⟩
      exact absurd ht (key.mp hall p hp)
    · intro _
      simp [allActionsValues, hall]
  · have hfl : ∃ p ∈ actionsSpec, p.2 = InputType.float := by
      by_contra hcon
      push_neg at hcon
      exact hall (key.mpr hcon)
    have hb : (actionsSpec.all fun p =>
        p.2 == InputType.bool || p.2 == InputType.int) = false :=
      Bool.eq_false_iff.mpr hall
    refine ⟨?_, ?_, ?_⟩
    · simp only [allActionsValues, hb, Bool.not_false, if_true,
        Except.isOk, Except.toBool, Bool.false_eq_true, false_iff]
      intro hcon
      obtain ⟨p, hp, ht⟩ := hfl
      exact hcon p hp ht
    · intro _
      simp [allActionsValues, hb]
    · intro h
      exact absurd (key.mpr h) hall

/-- Witness for C9: one bool action, trivial network and heads. -/
theorem all_actions_values_spec_witness :
    allActionsValues [("a", InputType.bool)] (fun s : ℕ => s)
        (fun (_ : String) (e : ℕ) => e) (fun (_ : String) (p : ℕ) => p) 3
      = Except.ok (([("a", InputType.bool)]).map (fun p =>
          (p.1, (fun (_ : String) (p : ℕ) => p) p.1
            ((fun (_ : String) (e : ℕ) => e) p.1 ((fun s : ℕ => s) 3))))) :=
  (all_actions_values_spec [("a", InputType.bool)] (fun s : ℕ => s)
    (fun (_ : String) (e : ℕ) => e) (fun (_ : String) (p : ℕ) => p) 3).2.2
    (by decide)

end Tensorforce
